import Mathlib

/-!
Verification of the Medicly document-processor pipeline.

The JavaScript sources are shallowly embedded: each JS string operation is
translated to an executable Lean function over `String` (represented through
its `List Char` data), and each processing function (`extractData` from
`src/services/docProcessor.js`, the boundary/`postProcessHtml` logic from the
unnamed module, the `insertPost`/orchestrator loop) becomes a total Lean
function of the same shape.
-/

namespace Medicly

instance {ε α : Type} [DecidableEq ε] [DecidableEq α] : DecidableEq (Except ε α) := fun x y =>
  match x, y with
  | .error a, .error b =>
    if h : a = b then isTrue (by rw [h]) else isFalse (by simp [h])
  | .ok a, .ok b =>
    if h : a = b then isTrue (by rw [h]) else isFalse (by simp [h])
  | .error _, .ok _ => isFalse (by simp)
  | .ok _, .error _ => isFalse (by simp)

/-! ## String primitives (JS semantics, over `List Char`) -/

/-- Whitespace characters removed by `String.prototype.trim` (ASCII subset). -/
def isWS (c : Char) : Bool :=
  c == ' ' || c == '\t' || c == '\n' || c == '\r' || c == '\x0b' || c == '\x0c'

/-- Trim on character lists: drop whitespace from both ends. -/
def trimChars (cs : List Char) : List Char :=
  ((cs.dropWhile isWS).reverse.dropWhile isWS).reverse

/-- JS `s.trim()`. -/
def jsTrim (s : String) : String := String.mk (trimChars s.data)

/-- Split a character list at every occurrence of `sep` (JS `split` semantics:
separators delimit fields, empty fields are kept). -/
def splitCharAux (sep : Char) : List Char → List Char → List (List Char)
  | cur, [] => [cur.reverse]
  | cur, c :: cs =>
    if c == sep then cur.reverse :: splitCharAux sep [] cs
    else splitCharAux sep (c :: cur) cs

/-- JS `rawText.split('\n')`. -/
def jsSplitLines (s : String) : List String :=
  (splitCharAux '\n' [] s.data).map String.mk

/-- Case-insensitive character equality (JS `/i` flag). -/
def lcEq (a b : Char) : Bool := a.toLower == b.toLower

/-- Case-insensitive "needle is a prefix of hay" on character lists. -/
def ciPrefix : List Char → List Char → Bool
  | [], _ => true
  | _ :: _, [] => false
  | n :: ns, h :: hs => lcEq n h && ciPrefix ns hs

/-- JS case-insensitive anchored test `/^pat/i.test(s)` for a literal `pat`. -/
def startsWithCI (pat s : String) : Bool := ciPrefix pat.data s.data

/-- Case-sensitive prefix test on strings. -/
def litPrefix (pat s : String) : Bool := pat.data.isPrefixOf s.data

/-- Number of characters of a string (JS `s.length` for BMP/ASCII text). -/
def lineLen (s : String) : Nat := s.data.length

/-- Boolean "needle occurs as a contiguous sublist of hay". -/
def listInfix (needle hay : List Char) : Bool :=
  (List.range (hay.length + 1)).any fun i => needle.isPrefixOf (hay.drop i)

/-- JS `s.includes(sub)`. -/
def containsStr (s sub : String) : Bool := listInfix sub.data s.data

/-- JS `xs.join(sep)`. -/
def joinWith (sep : String) : List String → String
  | [] => ""
  | [x] => x
  | x :: y :: ys => x ++ sep ++ joinWith sep (y :: ys)

/-- JS `descriptionLines.join(' ')`. -/
def joinSpace (xs : List String) : String := joinWith " " xs

/-- JS `contentLines.join('\n')`. -/
def joinNl (xs : List String) : String := joinWith "\n" xs

/-- First-some choice on options (used to state "last assignment wins"). -/
def oOr {α : Type} (a b : Option α) : Option α :=
  match a with
  | some x => some x
  | none => b

/-- The string contains no newline character. -/
def noNL (s : String) : Bool := decide ('\n' ∉ s.data)

/-! ## `extractData` (src/services/docProcessor.js) -/

/-- Alternatives of the SEO-block-start regex
`/^(SEO & Meta Details|Blog Post:|Meta Data|1\. Meta Data|Meta Title:|Slug:|URL Slug:)/i`. -/
def seoMarkerAlts : List String :=
  ["SEO & Meta Details", "Blog Post:", "Meta Data", "1. Meta Data",
   "Meta Title:", "Slug:", "URL Slug:"]

/-- `seoMarkers.test(line)`: the (untrimmed) line starts with one of the
block-start markers, case-insensitively. -/
def isSeoMarker (line : String) : Bool :=
  seoMarkerAlts.any fun m => startsWithCI m line

/-- Try the label alternatives in regex order: if `alt ++ ":"` is a
case-insensitive prefix of `s`, return `s` with that prefix removed
(JS `test` + `replace(pattern, '')` for the anchored label patterns). -/
def matchLabel (alts : List String) (s : String) : Option String :=
  alts.findSome? fun a =>
    if ciPrefix (a ++ ":").data s.data then
      some (String.mk (s.data.drop (a ++ ":").data.length))
    else none

def slugAlts : List String := ["Slug", "Slugx", "URL Slug", "Suggested URL Slug"]
def metaTitleAlts : List String := ["Meta Title", "Optimized Meta Title"]
def metaDescriptionAlts : List String := ["Meta Description", "Compelling Meta Description"]
def keywordsAlts : List String := ["Primary Keywords"]

/-- `/^By Dr\./i.test(line)`. -/
def bylineTest (t : String) : Bool := startsWithCI "By Dr." t

/-- State of the pre-SEO loop of `extractData` (step 1). -/
structure TopState where
  titleFound : Bool
  author : Option String
  title : Option String
  content : List String
deriving DecidableEq

def initTop : TopState := ⟨false, none, none, []⟩

/-- One iteration of the pre-SEO loop: byline check, then title heuristic,
then content accumulation (original line preserved). -/
def topStep (s : TopState) (line : String) : TopState :=
  let t := jsTrim line
  if bylineTest t then { s with author := some t }
  else if !s.titleFound && decide (20 < lineLen t) && !containsStr t "Medically reviewed" then
    { s with title := some t, titleFound := true }
  else if s.titleFound then { s with content := s.content ++ [line] }
  else s

/-- State of the SEO-block loop of `extractData` (step 2). -/
structure SeoState where
  slug : Option String
  metaTitle : Option String
  keywords : Option String
  descLines : List String
  isParsingDescription : Bool
deriving DecidableEq

def emptySeo : SeoState := ⟨none, none, none, [], false⟩

/-- One iteration of `seoLines.forEach`: the four field patterns in source
order, then description-continuation capture. -/
def seoStep (s : SeoState) (line : String) : SeoState :=
  let t := jsTrim line
  match matchLabel slugAlts t with
  | some v => { s with isParsingDescription := false, slug := some (jsTrim v) }
  | none =>
    match matchLabel metaTitleAlts t with
    | some v => { s with isParsingDescription := false, metaTitle := some (jsTrim v) }
    | none =>
      match matchLabel metaDescriptionAlts t with
      | some v =>
        { s with isParsingDescription := true, descLines := s.descLines ++ [jsTrim v] }
      | none =>
        match matchLabel keywordsAlts t with
        | some v => { s with isParsingDescription := false, keywords := some (jsTrim v) }
        | none =>
          if s.isParsingDescription then { s with descLines := s.descLines ++ [t] } else s

/-- Run the SEO-block loop from the empty state. -/
def seoRun (ls : List String) : SeoState := ls.foldl seoStep emptySeo

/-- `descriptionLines.join(' ').trim()`, guarded by non-emptiness. -/
def descJoin (s : SeoState) : Option String :=
  if s.descLines.isEmpty then none else some (jsTrim (joinSpace s.descLines))

/-- The `metaDescription` assembled by running the SEO loop over `ls`. -/
def assembleDesc (ls : List String) : Option String := descJoin (seoRun ls)

/-- `rawText.split('\n').filter(line => line.trim() !== '')`. -/
def docLines (raw : String) : List String :=
  (jsSplitLines raw).filter fun l => jsTrim l != ""

/-- Upper bound of the pre-SEO loop: the SEO-block start index, or the number
of lines when no marker is found. -/
def seoBound (raw : String) : Nat :=
  match (docLines raw).findIdx? isSeoMarker with
  | some k => k
  | none => (docLines raw).length

/-- The metadata object built by `extractData` before final validation. -/
structure Metadata where
  title : Option String
  author : Option String
  slug : Option String
  metaTitle : Option String
  metaDescription : Option String
  keywords : Option String
deriving DecidableEq

/-- Steps 1 and 2 of `extractData`: line split/filter, SEO-block location,
pre-SEO loop, SEO loop, description join; returns metadata and the joined
content string. -/
def extractMeta (raw : String) : Metadata × String :=
  let lines := docLines raw
  let top := (lines.take (seoBound raw)).foldl topStep initTop
  let seo :=
    match lines.findIdx? isSeoMarker with
    | some k => seoRun (lines.drop k)
    | none => emptySeo
  (⟨top.title, top.author, seo.slug, seo.metaTitle, descJoin seo, seo.keywords⟩,
   joinNl top.content)

/-- JS falsiness of an optional string field: `undefined` or `''`. -/
def falsy : Option String → Bool
  | none => true
  | some s => s == ""

def titleErr (fp : String) : String := "Title could not be determined for file: " ++ fp
def slugErr (fp : String) : String := "Slug could not be found for file: " ++ fp
def metaTitleErr (fp : String) : String := "Meta Title could not be found for file: " ++ fp

/-- `extractData(rawText, filePath)`: extraction plus step-3 validation,
throwing the first applicable required-field error. -/
def extractData (raw fp : String) : Except String (Metadata × String) :=
  let r := extractMeta raw
  if falsy r.1.title then .error (titleErr fp)
  else if falsy r.1.slug then .error (slugErr fp)
  else if falsy r.1.metaTitle then .error (metaTitleErr fp)
  else .ok r

/-! ## HTML boundary resolution (unnamed module, first `processDocxFile` variant) -/

/-- JS `hay.indexOf(needle, start)`: smallest occurrence index `≥ start`. -/
def jsIndexOf (hay needle : String) (start : Nat) : Option Nat :=
  ((List.range (hay.data.length + 1)).filter fun i =>
    decide (start ≤ i) && needle.data.isPrefixOf (hay.data.drop i)).head?

/-- JS `hay.lastIndexOf(needle)`: greatest occurrence index. -/
def jsLastIndexOf (hay needle : String) : Option Nat :=
  ((List.range (hay.data.length + 1)).filter fun i =>
    needle.data.isPrefixOf (hay.data.drop i)).getLast?

/-- JS `hay.lastIndexOf(needle, fromIdx)`: greatest occurrence index `≤ fromIdx`. -/
def jsLastIndexOfFrom (hay needle : String) (fromIdx : Nat) : Option Nat :=
  ((List.range (hay.data.length + 1)).filter fun i =>
    decide (i ≤ fromIdx) && needle.data.isPrefixOf (hay.data.drop i)).getLast?

/-- JS `s.substring(a, b)` for `a ≤ b` (the code only calls it this way). -/
def jsSubstring (s : String) (a b : Nat) : String :=
  String.mk ((s.data.take b).drop a)

/-- The fixed `endMarkers` priority list. -/
def endMarkers : List String :=
  ["Always consult your healthcare provider for personal medical concerns.",
   "Okay, I have the full, updated blog post content.",
   "[Discover All Medicly Telehealth Services Here!]",
   "âœ… SEO & Meta Data for:",
   "Blog Post: How to Quickly Obtain an Online Medical Certificate",
   "Meta Title:"]

/-- The end-marker loop: first marker whose last occurrence lies strictly after
`start` and that is preceded by a `<` yields the trimmed substring. -/
def findEnd (html : String) (start : Nat) : List String → Option String
  | [] => none
  | m :: ms =>
    match jsLastIndexOf html m with
    | some e =>
      if start < e then
        match jsLastIndexOfFrom html "<" e with
        | some o => some (jsTrim (jsSubstring html start o))
        | none => findEnd html start ms
      else findEnd html start ms
    | none => findEnd html start ms

def startBoundaryErr : String := "Could not find the start of the content after the title."
def endBoundaryErr : String := "Could not determine content boundaries. No known end pattern matched."

/-- Content-boundary resolution of the first `processDocxFile` variant:
start boundary after the closing tag of the element containing `title`,
end boundary from `endMarkers`, with the `Meta Title:` fallback. -/
def resolveBody (html title : String) : Except String String :=
  match jsIndexOf html title 0 with
  | none => .error startBoundaryErr
  | some i0 =>
    let start :=
      match jsIndexOf html "</" (i0 + lineLen title) with
      | none => i0
      | some ct =>
        match jsIndexOf html ">" ct with
        | none => i0
        | some e => e + 1
    let c1 := (findEnd html start endMarkers).getD ""
    if c1 != "" then .ok c1
    else
      let c2 :=
        match jsIndexOf html "Meta Title:" 0 with
        | some si =>
          if start < si then
            match jsLastIndexOfFrom html "<" si with
            | some o => jsTrim (jsSubstring html start o)
            | none => ""
          else ""
        | none => ""
      if c2 != "" then .ok c2 else .error endBoundaryErr

/-! ## Markup post-processing (unnamed module, `postProcessHtml`) -/

structure LinkRule where
  phrase : String
  url : String

/-- The `internalLinks` table of `postProcessHtml` (each regex source is a
literal phrase). -/
def internalLinks : List LinkRule :=
  [⟨"online prescription", "https://medicly.com.au/prescriptions"⟩,
   ⟨"doctor consultation", "https://medicly.com.au/doctor-consultation"⟩,
   ⟨"online doctor consultation", "https://medicly.com.au/doctor-consultation"⟩,
   ⟨"certificates", "https://medicly.com.au/certificates"⟩]

/-- Scanning backward (list is the reversed prefix): after the leading `>`,
is there an `a` immediately preceded by `<` with no `>` in between?  This is
exactly a match of the lookbehind pattern `<a[^>]*>` ending here. -/
def scanBack : List Char → Bool
  | [] => false
  | c :: cs =>
    if c == '>' then false
    else (lcEq c 'a' && (match cs with | d :: _ => d == '<' | [] => false)) || scanBack cs

/-- The negative lookbehind `(?<!<a[^>]*>)` evaluated against the reversed
prefix of the original string: blocked when a complete anchor-opening tag ends
immediately before the match. -/
def revAnchorOpen : List Char → Bool
  | '>' :: rest => scanBack rest
  | _ => false

/-- One global-replace pass of
`new RegExp("(?<!<a[^>]*>)(" + phrase + ")(?!<\\/a>)", "gi")` with replacement
`<a href="url">$1</a>`: left-to-right scan over the original characters,
lookbehind/lookahead checked against the original string.  `fuel` only forces
structural termination; it starts above the input length. -/
def wrapScan (p0 : Char) (ps : List Char) (url : String) :
    Nat → List Char → List Char → List Char
  | 0, _, rest => rest
  | _ + 1, _, [] => []
  | fuel + 1, rpre, c :: cs =>
    if ciPrefix (p0 :: ps) (c :: cs) && !revAnchorOpen rpre &&
        !ciPrefix "</a>".data (cs.drop ps.length) then
      let m := (c :: cs).take (ps.length + 1)
      ("<a href=\"" ++ url ++ "\">").data ++ m ++ "</a>".data ++
        wrapScan p0 ps url fuel (m.reverse ++ rpre) (cs.drop ps.length)
    else c :: wrapScan p0 ps url fuel (c :: rpre) cs

/-- Apply one link rule to the whole string. -/
def replacePhrase (html : String) (r : LinkRule) : String :=
  match r.phrase.data with
  | [] => html
  | p0 :: ps => String.mk (wrapScan p0 ps r.url (html.data.length + 1) [] html.data)

/-- `<p><strong><a href="`, the literal part of the CTA pattern. -/
def ctaPre : List Char := "<p><strong><a href=\"".data

/-- Match `[^"]*"` followed by `>`: the group runs to the first quote, which
must be followed by `>`.  Returns the number of consumed characters including
the closing quote. -/
def ctaScanQuote : List Char → Nat → Option Nat
  | [], _ => none
  | c :: cs, acc =>
    if c == '"' then
      match cs with
      | '>' :: _ => some (acc + 1)
      | _ => none
    else ctaScanQuote cs (acc + 1)

/-- One global-replace pass of `/(<p><strong><a href="[^"]*")>/g` with
replacement `$1 class="blog_cta">`. -/
def ctaScan : Nat → List Char → List Char
  | 0, rest => rest
  | _ + 1, [] => []
  | fuel + 1, c :: cs =>
    if ctaPre.isPrefixOf (c :: cs) then
      match ctaScanQuote ((c :: cs).drop ctaPre.length) 0 with
      | some k =>
        let g := (c :: cs).take (ctaPre.length + k)
        g ++ " class=\"blog_cta\">".data ++ ctaScan fuel ((c :: cs).drop (ctaPre.length + k + 1))
      | none => c :: ctaScan fuel cs
    else c :: ctaScan fuel cs

/-- `postProcessHtml`: the four link-wrapping passes in order, then the CTA
class pass. -/
def postProcessHtml (html : String) : String :=
  let linked := internalLinks.foldl replacePhrase html
  String.mk (ctaScan (linked.data.length + 1) linked.data)

/-! ## Persistence and orchestration (src/services/database.js, process-docs.js) -/

/-- The record destructured by `insertPost`. -/
structure Post where
  title : Option String
  slug : String
  category : Option String
  excerpt : Option String
  content : Option String
  image : Option String
  metaTitle : Option String
  metaDescription : Option String
  keywords : Option String
  author : Option String
  imageTitle : Option String
deriving DecidableEq

/-- Modelled from the spec: the persistence collaborator is "an upsert-like
insert keyed on `slug` that is a no-op (returns no identifier) when the slug
already exists, and otherwise returns the new record's identifier and slug"
(the SQL `ON CONFLICT (slug) DO NOTHING RETURNING id, slug` of `insertPost`;
the database engine itself is outside the repository). -/
def insertPost (db : List Post) (p : Post) : List Post × Option (Nat × String) :=
  if db.any (fun q => q.slug == p.slug) then (db, none)
  else (db ++ [p], some (db.length + 1, p.slug))

/-- Observable state of the orchestrator main loop: database rows, files still
in the inbound `doc` directory, files moved to `sent`, the error log, and the
per-file console reports. -/
structure OrchState where
  db : List Post
  inbound : List String
  sent : List String
  log : List (String × String)
  reports : List String
deriving DecidableEq

def successMsg (slug : String) (id : Nat) : String :=
  "Success: Post \"" ++ slug ++ "\" saved with ID: " ++ toString id ++ "."

def skipMsg (slug : String) : String :=
  "Skipped: A post with slug \"" ++ slug ++ "\" already exists. File not moved."

/-- One iteration of the `for (const file of docxFiles)` loop of `main`:
process the file, insert, then either move the file and report success, report
the duplicate skip, or log the error (file left in place). -/
def processOne (pipeline : String → Except String Post) (st : OrchState)
    (file : String) : OrchState :=
  match pipeline file with
  | .error e => { st with log := st.log ++ [(file, e)] }
  | .ok post =>
    match insertPost st.db post with
    | (db', some r) =>
      { st with
          db := db'
          reports := st.reports ++ [successMsg post.slug r.1]
          inbound := st.inbound.erase file
          sent := st.sent ++ [file] }
    | (db', none) =>
      { st with db := db', reports := st.reports ++ [skipMsg post.slug] }

/-- The whole loop over the remaining files. -/
def processAll (pipeline : String → Except String Post) (st : OrchState) :
    List String → OrchState
  | [] => st
  | f :: fs => processAll pipeline (processOne pipeline st f) fs

/-! ## Spec-side characterizations

These definitions follow the wording of the specification / claims, to be
compared with the embedded code above. -/

/-- Claim C1's title condition on a trimmed line: trimmed length greater
than 20, not a byline, not containing "Medically reviewed". -/
def titlePredSpec (t : String) : Bool :=
  !bylineTest t && decide (20 < lineLen t) && !containsStr t "Medically reviewed"

/-- Claim C1's title: the first line (trimmed) of the region satisfying the
title condition. -/
def titleSpec (ls : List String) : Option String :=
  (ls.map jsTrim).find? titlePredSpec

/-- The last byline-matching line (trimmed) of a region. -/
def bylineSpec (ls : List String) : Option String :=
  ((ls.map jsTrim).filter bylineTest).getLast?

/-- The slug value a line contributes (label stripped and trimmed). -/
def slugMatches (t : String) : Option String := (matchLabel slugAlts t).map jsTrim

/-- The meta-title value a line contributes, honouring the branch priority
(a slug match consumes the line first). -/
def mtMatches (t : String) : Option String :=
  match matchLabel slugAlts t with
  | some _ => none
  | none => (matchLabel metaTitleAlts t).map jsTrim

/-- The keywords value a line contributes, honouring the branch priority. -/
def kwMatches (t : String) : Option String :=
  match matchLabel slugAlts t with
  | some _ => none
  | none =>
    match matchLabel metaTitleAlts t with
    | some _ => none
    | none =>
      match matchLabel metaDescriptionAlts t with
      | some _ => none
      | none => (matchLabel keywordsAlts t).map jsTrim

/-- A trimmed line matching none of the four SEO field patterns. -/
def noFieldMatch (t : String) : Bool :=
  (matchLabel slugAlts t).isNone && (matchLabel metaTitleAlts t).isNone &&
  (matchLabel metaDescriptionAlts t).isNone && (matchLabel keywordsAlts t).isNone

/-! ## Concrete fixture documents -/

/-- A document with a byline, a title line, and an SEO block. -/
def c1raw : String :=
  "By Dr. Gurbakhshish Singh\nUnderstanding Telehealth Prescriptions in Australia\nMeta Title: T\nSlug: s"

/-- A document with a valid title but no SEO-block-start marker at all. -/
def c2raw : String :=
  "This rather long line is the document title\nJust some ordinary body text here."

/-- A document with an SEO block whose meta description wraps to a second
line. -/
def c3block : List String :=
  ["SEO & Meta Details", "Meta Description: Part one.", "continued sentence.", "Slug: s"]

/-- A document with a Slug line but no Meta Title line. -/
def c6raw : String := "This rather long line is the document title\nSlug: my-slug"

/-- A document with two distinct byline lines before the SEO block. -/
def c8raw : String :=
  "By Dr. Alice Anderson MD\nBy Dr. Bob Brown MD\nThis document title is long enough\nMeta Title: T\nSlug: s"

/-- A post record as produced by the pipeline. -/
def post0 : Post :=
  ⟨some "T", "my-slug", none, none, some "<p>b</p>", none, some "MT", none, none, none, none⟩

/-- A database already containing `post0`'s slug. -/
def db0 : List Post := [post0]

/-- Orchestrator state with two inbound files and `db0` as database. -/
def st0 : OrchState := ⟨db0, ["a.docx", "b.docx"], [], [], []⟩

/-- A pipeline stub that extracts `post0` from any file. -/
def pipeline0 : String → Except String Post := fun _ => .ok post0

/-- An SEO state in description-capture mode with one collected line. -/
def seoSt0 : SeoState := ⟨some "s", none, none, ["first part"], true⟩

/-! ## Helper lemmas -/

theorem data_append (a b : String) : (a ++ b).data = a.data ++ b.data := rfl

theorem oOr_none {α} (a : Option α) : oOr a none = a := by cases a <;> rfl

theorem oOr_isSome_left {α} (a : Option α) (y : α) (b : Option α) :
    oOr (oOr a (some y)) b = oOr a (some y) := by cases a <;> rfl

theorem getLast?_cons_oOr {α} (x : α) (xs : List α) :
    (x :: xs).getLast? = oOr xs.getLast? (some x) := by
  induction xs generalizing x with
  | nil => rfl
  | cons y ys ih =>
    rw [List.getLast?_cons_cons, ih y, oOr_isSome_left]

theorem head?_data_append (a b : String) (c : Char) (h : a.data.head? = some c) :
    (a ++ b).data.head? = some c := by
  rw [data_append]
  cases hd : a.data with
  | nil => rw [hd] at h; exact absurd h (by simp)
  | cons x xs => rw [hd] at h; simpa using h

/-- The three validation messages are pairwise distinct (they start with
different characters). -/
theorem errMsgs_distinct (fp : String) :
    titleErr fp ≠ slugErr fp ∧ titleErr fp ≠ metaTitleErr fp ∧
    slugErr fp ≠ metaTitleErr fp := by
  refine ⟨fun h => ?_, fun h => ?_, fun h => ?_⟩
  · have hh := congrArg (fun s => s.data.head?) h
    simp only [titleErr, slugErr] at hh
    rw [head?_data_append _ _ 'T' (by decide), head?_data_append _ _ 'S' (by decide)] at hh
    simp at hh
  · have hh := congrArg (fun s => s.data.head?) h
    simp only [titleErr, metaTitleErr] at hh
    rw [head?_data_append _ _ 'T' (by decide), head?_data_append _ _ 'M' (by decide)] at hh
    simp at hh
  · have hh := congrArg (fun s => s.data.head?) h
    simp only [slugErr, metaTitleErr] at hh
    rw [head?_data_append _ _ 'S' (by decide), head?_data_append _ _ 'M' (by decide)] at hh
    simp at hh

/-- Once the title flag is set, later iterations never change the title. -/
theorem foldl_top_found (ls : List String) : ∀ s : TopState, s.titleFound = true →
    (ls.foldl topStep s).titleFound = true ∧ (ls.foldl topStep s).title = s.title := by
  induction ls with
  | nil => intro s h; exact ⟨h, rfl⟩
  | cons l ls ih =>
    intro s h
    rw [List.foldl_cons]
    have hstep : (topStep s l).titleFound = true ∧ (topStep s l).title = s.title := by
      unfold topStep
      by_cases hb : bylineTest (jsTrim l) = true <;> simp [hb, h]
    obtain ⟨h1, h2⟩ := hstep
    obtain ⟨h3, h4⟩ := ih (topStep s l) h1
    exact ⟨h3, h4.trans h2⟩

/-- The title produced by the pre-SEO loop is the first line satisfying the
title condition of the claim. -/
theorem foldl_top_title (ls : List String) : ∀ s : TopState,
    s.titleFound = false → s.title = none →
    (ls.foldl topStep s).title = (ls.map jsTrim).find? titlePredSpec := by
  induction ls with
  | nil => intro s _ h2; simpa using h2
  | cons l ls ih =>
    intro s h1 h2
    rw [List.foldl_cons, List.map_cons]
    by_cases hb : bylineTest (jsTrim l) = true
    · have hp : titlePredSpec (jsTrim l) = false := by simp [titlePredSpec, hb]
      rw [List.find?_cons_of_neg _ (by simp [hp])]
      have hs : topStep s l = { s with author := some (jsTrim l) } := by
        simp [topStep, hb]
      rw [hs]
      exact ih _ h1 h2
    · have hbf : bylineTest (jsTrim l) = false := by simpa using hb
      by_cases hc : (decide (20 < lineLen (jsTrim l)) &&
          !containsStr (jsTrim l) "Medically reviewed") = true
      · have hp : titlePredSpec (jsTrim l) = true := by
          simp only [titlePredSpec, hbf, Bool.not_false, Bool.true_and]; exact hc
        rw [List.find?_cons_of_pos _ hp]
        have hs : topStep s l =
            { s with title := some (jsTrim l), titleFound := true } := by
          simp only [topStep, hbf, Bool.false_eq_true, if_false, h1, Bool.not_false,
            Bool.true_and, hc, if_true]
        rw [hs]
        exact (foldl_top_found ls _ rfl).2
      · have hcf : (decide (20 < lineLen (jsTrim l)) &&
            !containsStr (jsTrim l) "Medically reviewed") = false := by simpa using hc
        have hp : titlePredSpec (jsTrim l) = false := by
          simp only [titlePredSpec, hbf, Bool.not_false, Bool.true_and]; exact hcf
        rw [List.find?_cons_of_neg _ (by simp [hp])]
        have hs : topStep s l = s := by
          simp only [topStep, hbf, Bool.false_eq_true, if_false, h1, Bool.not_false,
            Bool.true_and, hcf, if_false]
        rw [hs]
        exact ih _ h1 h2

/-- The author produced by the pre-SEO loop is the last byline line. -/
theorem foldl_top_author (ls : List String) : ∀ s : TopState,
    (ls.foldl topStep s).author =
      oOr ((ls.map jsTrim).filter bylineTest).getLast? s.author := by
  induction ls with
  | nil => intro s; rfl
  | cons l ls ih =>
    intro s
    rw [List.foldl_cons, List.map_cons]
    by_cases hb : bylineTest (jsTrim l) = true
    · rw [List.filter_cons_of_pos hb, getLast?_cons_oOr, oOr_isSome_left]
      have hs : (topStep s l).author = some (jsTrim l) := by simp [topStep, hb]
      rw [ih (topStep s l), hs]
    · have hbf : bylineTest (jsTrim l) = false := by simpa using hb
      rw [List.filter_cons_of_neg (by simp [hbf])]
      have hs : (topStep s l).author = s.author := by
        unfold topStep
        simp only [hbf, Bool.false_eq_true, if_false]
        split <;> try rfl
        split <;> rfl
      rw [ih (topStep s l), hs]

/-- Each single-valued SEO field holds the value of the last matching line;
later matches overwrite earlier ones. -/
theorem foldl_seo_fields (ls : List String) : ∀ s : SeoState,
    (ls.foldl seoStep s).slug =
      oOr ((ls.map jsTrim).filterMap slugMatches).getLast? s.slug ∧
    (ls.foldl seoStep s).metaTitle =
      oOr ((ls.map jsTrim).filterMap mtMatches).getLast? s.metaTitle ∧
    (ls.foldl seoStep s).keywords =
      oOr ((ls.map jsTrim).filterMap kwMatches).getLast? s.keywords := by
  induction ls with
  | nil => intro s; exact ⟨rfl, rfl, rfl⟩
  | cons l ls ih =>
    intro s
    rw [List.foldl_cons, List.map_cons]
    cases h1 : matchLabel slugAlts (jsTrim l) with
    | some v₁ =>
      have hstep : seoStep s l =
          { s with isParsingDescription := false, slug := some (jsTrim v₁) } := by
        simp [seoStep, h1]
      obtain ⟨ia, ib, ic⟩ := ih (seoStep s l)
      refine ⟨?_, ?_, ?_⟩
      · rw [ia, hstep]
        simp only [List.filterMap_cons, slugMatches, h1, Option.map_some']
        rw [getLast?_cons_oOr, oOr_isSome_left]
      · rw [ib, hstep]
        simp only [List.filterMap_cons, mtMatches, h1]
      · rw [ic, hstep]
        simp only [List.filterMap_cons, kwMatches, h1]
    | none =>
      cases h2 : matchLabel metaTitleAlts (jsTrim l) with
      | some v₂ =>
        have hstep : seoStep s l =
            { s with isParsingDescription := false, metaTitle := some (jsTrim v₂) } := by
          simp [seoStep, h1, h2]
        obtain ⟨ia, ib, ic⟩ := ih (seoStep s l)
        refine ⟨?_, ?_, ?_⟩
        · rw [ia, hstep]
          simp only [List.filterMap_cons, slugMatches, h1, Option.map_none']
        · rw [ib, hstep]
          simp only [List.filterMap_cons, mtMatches, h1, h2, Option.map_some']
          rw [getLast?_cons_oOr, oOr_isSome_left]
        · rw [ic, hstep]
          simp only [List.filterMap_cons, kwMatches, h1, h2]
      | none =>
        cases h3 : matchLabel metaDescriptionAlts (jsTrim l) with
        | some v₃ =>
          have hstep : seoStep s l =
              { s with isParsingDescription := true, descLines := s.descLines ++ [jsTrim v₃] } := by
            simp [seoStep, h1, h2, h3]
          obtain ⟨ia, ib, ic⟩ := ih (seoStep s l)
          refine ⟨?_, ?_, ?_⟩
          · rw [ia, hstep]
            simp only [List.filterMap_cons, slugMatches, h1, Option.map_none']
          · rw [ib, hstep]
            simp only [List.filterMap_cons, mtMatches, h1, h2, Option.map_none']
          · rw [ic, hstep]
            simp only [List.filterMap_cons, kwMatches, h1, h2, h3]
        | none =>
          cases h4 : matchLabel keywordsAlts (jsTrim l) with
          | some v₄ =>
            have hstep : seoStep s l =
                { s with isParsingDescription := false, keywords := some (jsTrim v₄) } := by
              simp [seoStep, h1, h2, h3, h4]
            obtain ⟨ia, ib, ic⟩ := ih (seoStep s l)
            refine ⟨?_, ?_, ?_⟩
            · rw [ia, hstep]
              simp only [List.filterMap_cons, slugMatches, h1, Option.map_none']
            · rw [ib, hstep]
              simp only [List.filterMap_cons, mtMatches, h1, h2, Option.map_none']
            · rw [ic, hstep]
              simp only [List.filterMap_cons, kwMatches, h1, h2, h3, h4, Option.map_some']
              rw [getLast?_cons_oOr, oOr_isSome_left]
          | none =>
            have hstep : (seoStep s l).slug = s.slug ∧
                (seoStep s l).metaTitle = s.metaTitle ∧
                (seoStep s l).keywords = s.keywords := by
              unfold seoStep
              simp only [h1, h2, h3, h4]
              split <;> exact ⟨rfl, rfl, rfl⟩
            obtain ⟨ia, ib, ic⟩ := ih (seoStep s l)
            refine ⟨?_, ?_, ?_⟩
            · rw [ia, hstep.1]
              simp only [List.filterMap_cons, slugMatches, h1, Option.map_none']
            · rw [ib, hstep.2.1]
              simp only [List.filterMap_cons, mtMatches, h1, h2, Option.map_none']
            · rw [ic, hstep.2.2]
              simp only [List.filterMap_cons, kwMatches, h1, h2, h3, h4, Option.map_none']

/-- While no Meta Description line occurs, the collected description lines and
the capture flag are untouched. -/
theorem foldl_seo_nodesc (ls : List String) : ∀ s : SeoState,
    s.isParsingDescription = false →
    (∀ l ∈ ls, (matchLabel metaDescriptionAlts (jsTrim l)).isNone = true) →
    (ls.foldl seoStep s).descLines = s.descLines ∧
      (ls.foldl seoStep s).isParsingDescription = false := by
  induction ls with
  | nil => intro s h _; exact ⟨rfl, h⟩
  | cons l ls ih =>
    intro s hp hd
    rw [List.foldl_cons]
    have hdl : (matchLabel metaDescriptionAlts (jsTrim l)).isNone = true :=
      hd l (by simp)
    have h3 : matchLabel metaDescriptionAlts (jsTrim l) = none := by
      simpa using hdl
    have hstep : (seoStep s l).descLines = s.descLines ∧
        (seoStep s l).isParsingDescription = false := by
      cases h1 : matchLabel slugAlts (jsTrim l) with
      | some v => simp [seoStep, h1]
      | none =>
        cases h2 : matchLabel metaTitleAlts (jsTrim l) with
        | some v => simp [seoStep, h1, h2]
        | none =>
          cases h4 : matchLabel keywordsAlts (jsTrim l) with
          | some v => simp [seoStep, h1, h2, h3, h4]
          | none => simp [seoStep, h1, h2, h3, h4, hp]
    obtain ⟨i1, i2⟩ := ih (seoStep s l) hstep.2 (fun x hx => hd x (by simp [hx]))
    exact ⟨i1.trans hstep.1, i2⟩

/-- In capture mode, every line matching none of the four field patterns is
appended (trimmed) to the collected description lines. -/
theorem foldl_seo_capture (cs : List String) : ∀ s : SeoState,
    s.isParsingDescription = true →
    (∀ c ∈ cs, noFieldMatch (jsTrim c) = true) →
    (cs.foldl seoStep s).descLines = s.descLines ++ cs.map jsTrim ∧
      (cs.foldl seoStep s).isParsingDescription = true := by
  induction cs with
  | nil => intro s h _; exact ⟨by simp, h⟩
  | cons c cs ih =>
    intro s hp hn
    rw [List.foldl_cons]
    have hc : noFieldMatch (jsTrim c) = true := hn c (by simp)
    simp only [noFieldMatch, Bool.and_eq_true, Option.isNone_iff_eq_none] at hc
    obtain ⟨⟨⟨h1, h2⟩, h3⟩, h4⟩ := hc
    have hstep : seoStep s c = { s with descLines := s.descLines ++ [jsTrim c] } := by
      simp [seoStep, h1, h2, h3, h4, hp]
    obtain ⟨i1, i2⟩ := ih (seoStep s c) (by rw [hstep]; exact hp)
      (fun x hx => hn x (by simp [hx]))
    refine ⟨?_, i2⟩
    rw [i1, hstep]
    simp

/-- Trimming only removes characters. -/
theorem mem_trimChars {c : Char} {l : List Char} (h : c ∈ trimChars l) : c ∈ l := by
  unfold trimChars at h
  have h1 := (List.dropWhile_sublist isWS).mem (List.mem_reverse.mp h)
  exact (List.dropWhile_sublist isWS).mem (List.mem_reverse.mp h1)

/-- Every character of a space-join comes from a component or is a space. -/
theorem mem_joinSpace (xs : List String) (c : Char) (h : c ∈ (joinSpace xs).data) :
    c = ' ' ∨ ∃ s ∈ xs, c ∈ s.data := by
  induction xs with
  | nil => simp [joinSpace, joinWith] at h
  | cons x ys ih =>
    cases ys with
    | nil =>
      exact Or.inr ⟨x, by simp, by simpa [joinSpace, joinWith] using h⟩
    | cons y zs =>
      rw [show joinSpace (x :: y :: zs) = x ++ " " ++ joinSpace (y :: zs) from rfl,
        data_append, data_append] at h
      rcases List.mem_append.mp h with h' | h'
      · rcases List.mem_append.mp h' with h'' | h''
        · exact Or.inr ⟨x, by simp, h''⟩
        · left
          simpa using h''
      · rcases ih h' with h'' | ⟨s, hs, hc⟩
        · exact Or.inl h''
        · exact Or.inr ⟨s, by simp [hs], hc⟩

/-- The assembled description has no newline when its pieces have none. -/
theorem noNL_join (v : String) (cs : List String)
    (h1 : noNL v = true) (h2 : ∀ c ∈ cs, noNL c = true) :
    noNL (jsTrim (joinSpace (jsTrim v :: cs.map jsTrim))) = true := by
  simp only [noNL, decide_eq_true_eq] at h1 h2 ⊢
  intro hmem
  have hj : ('\n' : Char) ∈ (joinSpace (jsTrim v :: cs.map jsTrim)).data :=
    mem_trimChars hmem
  rcases mem_joinSpace _ _ hj with h | ⟨s, hs, hc⟩
  · exact absurd h (by decide)
  · rcases List.mem_cons.mp hs with h | h
    · subst h; exact h1 (mem_trimChars hc)
    · obtain ⟨c0, hc0, rfl⟩ := List.mem_map.mp h
      exact h2 c0 hc0 (mem_trimChars hc)

/-- When the needle occurs nowhere in the hay, `indexOf` finds nothing. -/
theorem jsIndexOf_eq_none (hay needle : String)
    (h : containsStr hay needle = false) : jsIndexOf hay needle 0 = none := by
  unfold containsStr listInfix at h
  rw [List.any_eq_false] at h
  unfold jsIndexOf
  have hf : (List.range (hay.data.length + 1)).filter
      (fun i => decide (0 ≤ i) && needle.data.isPrefixOf (hay.data.drop i)) = [] := by
    rw [List.filter_eq_nil_iff]
    intro i hi
    have := h i hi
    simp only [Nat.zero_le, decide_True, Bool.true_and]
    simpa using this
  rw [hf]
  rfl

/-! ## Claim theorems -/

/-- C1: for every raw document containing an SEO-block-start line, the
extracted title is the first line before that start whose trimmed length
exceeds 20, that is not a byline, and that does not contain
"Medically reviewed"; at most one title is ever assigned (first match wins,
as expressed by `List.find?`). -/
theorem extractData_title_spec (raw : String) (k : Nat)
    (h : (docLines raw).findIdx? isSeoMarker = some k) :
    (extractMeta raw).1.title = titleSpec ((docLines raw).take k) := by
  have hb : seoBound raw = k := by unfold seoBound; rw [h]
  unfold extractMeta titleSpec
  simp only [hb]
  exact foldl_top_title _ initTop rfl rfl

theorem extractData_title_spec_witness :
    (docLines c1raw).findIdx? isSeoMarker = some 2 ∧
    (extractMeta c1raw).1.title = titleSpec ((docLines c1raw).take 2) :=
  ⟨by decide, extractData_title_spec c1raw 2 (by decide)⟩

/-- C2 (amended): for every raw text with no SEO-block-start line, extraction
fails with the missing-title error (when no title line is found) or with the
missing-slug error, each naming the file; never any other error. -/
theorem extractData_no_marker (raw fp : String)
    (h : (docLines raw).findIdx? isSeoMarker = none) :
    extractData raw fp = .error (titleErr fp) ∨
      extractData raw fp = .error (slugErr fp) := by
  have hslug : (extractMeta raw).1.slug = none := by
    unfold extractMeta
    simp [h, emptySeo]
  unfold extractData
  by_cases ht : falsy (extractMeta raw).1.title = true
  · left
    simp [ht]
  · right
    have ht' : falsy (extractMeta raw).1.title = false := by simpa using ht
    have hslug' : falsy (extractMeta raw).1.slug = true := by rw [hslug]; rfl
    simp [ht', hslug']

/-- C2 counterexample: a marker-less document with no usable title fails with
the missing-title error, which is neither the missing-slug nor the
missing-metaTitle error — refuting the claim that only those two can occur. -/
theorem extractData_no_marker_cex :
    (docLines "a short line").findIdx? isSeoMarker = none ∧
    extractData "a short line" "doc.docx" = .error (titleErr "doc.docx") ∧
    titleErr "doc.docx" ≠ slugErr "doc.docx" ∧
    titleErr "doc.docx" ≠ metaTitleErr "doc.docx" := by decide

theorem extractData_no_marker_witness :
    (docLines c2raw).findIdx? isSeoMarker = none ∧
    (extractData c2raw "doc.docx" = .error (titleErr "doc.docx") ∨
      extractData c2raw "doc.docx" = .error (slugErr "doc.docx")) :=
  ⟨by decide, extractData_no_marker c2raw "doc.docx" (by decide)⟩

/-- C7: whenever the title does not occur as a literal substring of the HTML,
body resolution fails with the start-boundary error (a named failure, not an
empty string). -/
theorem resolveBody_title_missing (html title : String)
    (h : containsStr html title = false) :
    resolveBody html title = .error startBoundaryErr := by
  unfold resolveBody
  rw [jsIndexOf_eq_none html title h]

theorem resolveBody_title_missing_witness :
    containsStr "<p>Hello world</p>" "Absent Title" = false ∧
    resolveBody "<p>Hello world</p>" "Absent Title" = .error startBoundaryErr :=
  ⟨by decide, resolveBody_title_missing _ _ (by decide)⟩

/-- C8 (amended): every byline match before the SEO block overwrites the
author, so the extracted author is the last byline-matching line of that
region, not the first. -/
theorem extractData_author_last (raw : String) :
    (extractMeta raw).1.author = bylineSpec ((docLines raw).take (seoBound raw)) := by
  have hr : (extractMeta raw).1.author =
      (((docLines raw).take (seoBound raw)).foldl topStep initTop).author := rfl
  rw [hr, foldl_top_author]
  simp [bylineSpec, initTop, oOr_none]

/-- C8 counterexample: with two distinct byline lines before the SEO block,
the extracted author is the second one, not the first. -/
theorem extractData_author_cex :
    (docLines c8raw).findIdx? isSeoMarker = some 3 ∧
    (docLines c8raw).take 3 =
      ["By Dr. Alice Anderson MD", "By Dr. Bob Brown MD",
       "This document title is long enough"] ∧
    bylineTest (jsTrim "By Dr. Alice Anderson MD") = true ∧
    bylineTest (jsTrim "By Dr. Bob Brown MD") = true ∧
    (extractMeta c8raw).1.author = some "By Dr. Bob Brown MD" ∧
    some "By Dr. Bob Brown MD" ≠ some "By Dr. Alice Anderson MD" := by decide

/-- C3: an SEO block whose Meta Description wraps across lines assembles the
first line's value (label stripped, trimmed) followed by each continuation
line, joined with single spaces; the result contains no newline when the
pieces contain none. -/
theorem metaDescription_multiline (pre : List String) (d v : String) (cs post : List String)
    (hpre : ∀ l ∈ pre, (matchLabel metaDescriptionAlts (jsTrim l)).isNone = true)
    (hd1 : matchLabel slugAlts (jsTrim d) = none)
    (hd2 : matchLabel metaTitleAlts (jsTrim d) = none)
    (hd3 : matchLabel metaDescriptionAlts (jsTrim d) = some v)
    (hcs : ∀ c ∈ cs, noFieldMatch (jsTrim c) = true)
    (hpost : post = [] ∨ ∃ p ps, post = p :: ps ∧
      (matchLabel metaDescriptionAlts (jsTrim p)).isNone = true ∧
      ((matchLabel slugAlts (jsTrim p)).isSome = true ∨
        (matchLabel metaTitleAlts (jsTrim p)).isSome = true ∨
        (matchLabel keywordsAlts (jsTrim p)).isSome = true) ∧
      (∀ l ∈ ps, (matchLabel metaDescriptionAlts (jsTrim l)).isNone = true)) :
    assembleDesc (pre ++ d :: cs ++ post) =
      some (jsTrim (joinSpace (jsTrim v :: cs.map jsTrim))) ∧
    (noNL v = true → (∀ c ∈ cs, noNL c = true) →
      noNL (jsTrim (joinSpace (jsTrim v :: cs.map jsTrim))) = true) := by
  refine ⟨?_, fun h1 h2 => noNL_join v cs h1 h2⟩
  unfold assembleDesc seoRun
  rw [List.foldl_append, List.foldl_append, List.foldl_cons]
  obtain ⟨e1, e2⟩ := foldl_seo_nodesc pre emptySeo rfl hpre
  have hstep : seoStep (pre.foldl seoStep emptySeo) d =
      { pre.foldl seoStep emptySeo with
          isParsingDescription := true
          descLines := (pre.foldl seoStep emptySeo).descLines ++ [jsTrim v] } := by
    simp [seoStep, hd1, hd2, hd3]
  obtain ⟨f1, f2⟩ := foldl_seo_capture cs (seoStep (pre.foldl seoStep emptySeo) d)
    (by rw [hstep]) hcs
  have hdesc3 : (cs.foldl seoStep (seoStep (pre.foldl seoStep emptySeo) d)).descLines =
      jsTrim v :: cs.map jsTrim := by
    rw [f1, hstep]
    simp only [e1]
    rfl
  rcases hpost with rfl | ⟨p, ps, rfl, hp1, hp2, hp3⟩
  · simp only [List.foldl_nil]
    simp [descJoin, hdesc3]
  · rw [List.foldl_cons]
    have hp1' : matchLabel metaDescriptionAlts (jsTrim p) = none := by simpa using hp1
    have hstop : (seoStep (cs.foldl seoStep (seoStep (pre.foldl seoStep emptySeo) d)) p).descLines =
        (cs.foldl seoStep (seoStep (pre.foldl seoStep emptySeo) d)).descLines ∧
        (seoStep (cs.foldl seoStep (seoStep (pre.foldl seoStep emptySeo) d)) p).isParsingDescription
          = false := by
      cases hq1 : matchLabel slugAlts (jsTrim p) with
      | some w => simp [seoStep, hq1]
      | none =>
        cases hq2 : matchLabel metaTitleAlts (jsTrim p) with
        | some w => simp [seoStep, hq1, hq2]
        | none =>
          cases hq4 : matchLabel keywordsAlts (jsTrim p) with
          | some w => simp [seoStep, hq1, hq2, hp1', hq4]
          | none =>
            rcases hp2 with h | h | h
            · rw [hq1] at h; exact absurd h (by simp)
            · rw [hq2] at h; exact absurd h (by simp)
            · rw [hq4] at h; exact absurd h (by simp)
    obtain ⟨g1, g2⟩ := foldl_seo_nodesc ps _ hstop.2 hp3
    rw [descJoin, g1, hstop.1, hdesc3]
    simp

theorem metaDescription_multiline_witness :
    assembleDesc c3block =
      some (jsTrim (joinSpace (jsTrim " Part one." :: List.map jsTrim ["continued sentence."]))) ∧
    assembleDesc c3block = some "Part one. continued sentence." :=
  ⟨(metaDescription_multiline ["SEO & Meta Details"] "Meta Description: Part one."
      " Part one." ["continued sentence."] ["Slug: s"]
      (by decide) (by decide) (by decide) (by decide) (by decide)
      (Or.inr ⟨"Slug: s", [], rfl, by decide, Or.inl (by decide), by simp⟩)).1,
   by decide⟩

/-- C4: on the spec's example HTML and title, boundary resolution returns
exactly the paragraph between the title element and the element containing the
end-of-content marker, trimmed. -/
theorem resolveBody_example :
    resolveBody "<h1>My Title</h1><p>Body text.</p><p>Meta Title: X</p>" "My Title" =
      .ok "<p>Body text.</p>" := by decide

set_option maxRecDepth 100000 in
/-- C5 (refuted): the markup post-processor is not idempotent.  On
`<p>certificates</p>` the first run wraps the phrase; the second run wraps the
occurrence of "certificates" inside the inserted `href` attribute again,
changing the output. -/
theorem postProcessHtml_not_idempotent :
    postProcessHtml "<p>certificates</p>" =
      "<p><a href=\"https://medicly.com.au/certificates\">certificates</a></p>" ∧
    postProcessHtml (postProcessHtml "<p>certificates</p>") ≠
      postProcessHtml "<p>certificates</p>" := by decide

/-- C6: extraction succeeds exactly when title, slug and metaTitle are all
truthy; otherwise it fails with one of three pairwise-distinct errors, each
naming the missing field and the file, and the fired error's field is indeed
missing.  Author and keywords play no role in validation. -/
theorem extractData_validation (raw fp : String) :
    ((extractData raw fp).isOk = true ↔
      falsy (extractMeta raw).1.title = false ∧ falsy (extractMeta raw).1.slug = false ∧
        falsy (extractMeta raw).1.metaTitle = false) ∧
    (∀ e, extractData raw fp = .error e →
      (e = titleErr fp ∧ falsy (extractMeta raw).1.title = true) ∨
      (e = slugErr fp ∧ falsy (extractMeta raw).1.slug = true) ∨
      (e = metaTitleErr fp ∧ falsy (extractMeta raw).1.metaTitle = true)) ∧
    titleErr fp ≠ slugErr fp ∧ titleErr fp ≠ metaTitleErr fp ∧
      slugErr fp ≠ metaTitleErr fp := by
  refine ⟨?_, ?_, (errMsgs_distinct fp).1, (errMsgs_distinct fp).2.1,
    (errMsgs_distinct fp).2.2⟩
  · cases h1 : falsy (extractMeta raw).1.title <;>
      cases h2 : falsy (extractMeta raw).1.slug <;>
        cases h3 : falsy (extractMeta raw).1.metaTitle <;>
          simp [extractData, h1, h2, h3, Except.isOk, Except.toBool]
  · intro e he
    cases h1 : falsy (extractMeta raw).1.title <;>
      cases h2 : falsy (extractMeta raw).1.slug <;>
        cases h3 : falsy (extractMeta raw).1.metaTitle <;>
          simp [extractData, h1, h2, h3] at he <;>
            simp [he, h1, h2, h3]

theorem extractData_validation_witness :
    (metaTitleErr "doc.docx" = titleErr "doc.docx" ∧
      falsy (extractMeta c6raw).1.title = true) ∨
    (metaTitleErr "doc.docx" = slugErr "doc.docx" ∧
      falsy (extractMeta c6raw).1.slug = true) ∨
    (metaTitleErr "doc.docx" = metaTitleErr "doc.docx" ∧
      falsy (extractMeta c6raw).1.metaTitle = true) :=
  (extractData_validation c6raw "doc.docx").2.1 (metaTitleErr "doc.docx") (by decide)

/-- C9: a duplicate slug makes the insert a no-op returning no identifier; the
orchestrator then reports the skip, leaves the file in the inbound directory,
and the loop continues with the remaining files. -/
theorem insertPost_duplicate (pipeline : String → Except String Post) (st : OrchState)
    (file : String) (fs : List String) (post : Post)
    (hp : pipeline file = .ok post)
    (hdup : st.db.any (fun q => q.slug == post.slug) = true) :
    insertPost st.db post = (st.db, none) ∧
    (processOne pipeline st file).inbound = st.inbound ∧
    (processOne pipeline st file).sent = st.sent ∧
    (processOne pipeline st file).db = st.db ∧
    (processOne pipeline st file).reports = st.reports ++ [skipMsg post.slug] ∧
    processAll pipeline st (file :: fs) =
      processAll pipeline (processOne pipeline st file) fs := by
  have hins : insertPost st.db post = (st.db, none) := by simp [insertPost, hdup]
  have hpo : processOne pipeline st file =
      { st with db := st.db, reports := st.reports ++ [skipMsg post.slug] } := by
    simp [processOne, hp, hins]
  exact ⟨hins, by rw [hpo], by rw [hpo], by rw [hpo], by rw [hpo], rfl⟩

theorem insertPost_duplicate_witness :
    insertPost st0.db post0 = (st0.db, none) ∧
    (processOne pipeline0 st0 "a.docx").inbound = st0.inbound ∧
    (processOne pipeline0 st0 "a.docx").sent = st0.sent ∧
    (processOne pipeline0 st0 "a.docx").db = st0.db ∧
    (processOne pipeline0 st0 "a.docx").reports = st0.reports ++ [skipMsg post0.slug] ∧
    processAll pipeline0 st0 ("a.docx" :: ["b.docx"]) =
      processAll pipeline0 (processOne pipeline0 st0 "a.docx") ["b.docx"] :=
  insertPost_duplicate pipeline0 st0 "a.docx" ["b.docx"] post0 rfl (by decide)

/-- C10: each single-valued SEO field (slug, metaTitle, keywords) ends up with
the value of the last matching line — later matches overwrite — while a
further Meta Description line appends its value to the collected description
instead of replacing it. -/
theorem seo_last_match_wins :
    (∀ ls : List String,
      (seoRun ls).slug = ((ls.map jsTrim).filterMap slugMatches).getLast? ∧
      (seoRun ls).metaTitle = ((ls.map jsTrim).filterMap mtMatches).getLast? ∧
      (seoRun ls).keywords = ((ls.map jsTrim).filterMap kwMatches).getLast?) ∧
    (∀ (s : SeoState) (line v : String),
      matchLabel slugAlts (jsTrim line) = none →
      matchLabel metaTitleAlts (jsTrim line) = none →
      matchLabel metaDescriptionAlts (jsTrim line) = some v →
      (seoStep s line).descLines = s.descLines ++ [jsTrim v]) := by
  constructor
  · intro ls
    obtain ⟨a, b, c⟩ := foldl_seo_fields ls emptySeo
    exact ⟨by simpa [seoRun, emptySeo, oOr_none] using a,
      by simpa [seoRun, emptySeo, oOr_none] using b,
      by simpa [seoRun, emptySeo, oOr_none] using c⟩
  · intro s line v h1 h2 h3
    simp [seoStep, h1, h2, h3]

theorem seo_last_match_wins_witness :
    (seoStep seoSt0 "Meta Description: second part").descLines =
      seoSt0.descLines ++ [jsTrim " second part"] :=
  seo_last_match_wins.2 seoSt0 "Meta Description: second part" " second part"
    (by decide) (by decide) (by decide)

end Medicly
